import Mathlib

/-!
Shallow embedding of `gifti_surface_transformation.py`.

The script loads a GIfTI surface mesh (nibabel), an affine transform and a
displacement-field transform (SimpleITK), composes them as
`sitk.CompositeTransform([tfm_inv_warp, tfm_aff.GetInverse()])`, maps every
vertex of the mesh's first data array through the composite, and saves the
mesh.

Coordinates are modelled as rationals.  The displacement field (including the
library's interpolation) is abstracted as an arbitrary function from points to
displacement vectors, exactly the interface the script uses through
`TransformPoint`.  ITK/SimpleITK `CompositeTransform` has stack semantics: the
transform added last is applied to a point first, i.e. a composite built from
the list `[T0, T1]` computes `T0(T1(x))`.
-/

/-- A 3D point / vector with rational coordinates. -/
structure Vec3 where
  x : ℚ
  y : ℚ
  z : ℚ
deriving DecidableEq

/-- Componentwise addition of 3-vectors. -/
def Vec3.add (a b : Vec3) : Vec3 :=
  ⟨a.x + b.x, a.y + b.y, a.z + b.z⟩

/-- Componentwise subtraction of 3-vectors. -/
def Vec3.sub (a b : Vec3) : Vec3 :=
  ⟨a.x - b.x, a.y - b.y, a.z - b.z⟩

/-- Componentwise negation of a 3-vector. -/
def Vec3.neg (a : Vec3) : Vec3 :=
  ⟨-a.x, -a.y, -a.z⟩

/-- A 3x3 rational matrix, row major. -/
structure Mat3 where
  m11 : ℚ
  m12 : ℚ
  m13 : ℚ
  m21 : ℚ
  m22 : ℚ
  m23 : ℚ
  m31 : ℚ
  m32 : ℚ
  m33 : ℚ
deriving DecidableEq

/-- Matrix-vector product. -/
def Mat3.mulVec (M : Mat3) (v : Vec3) : Vec3 :=
  ⟨M.m11 * v.x + M.m12 * v.y + M.m13 * v.z,
   M.m21 * v.x + M.m22 * v.y + M.m23 * v.z,
   M.m31 * v.x + M.m32 * v.y + M.m33 * v.z⟩

/-- Determinant of a 3x3 matrix. -/
def Mat3.det (M : Mat3) : ℚ :=
  M.m11 * (M.m22 * M.m33 - M.m23 * M.m32)
    - M.m12 * (M.m21 * M.m33 - M.m23 * M.m31)
    + M.m13 * (M.m21 * M.m32 - M.m22 * M.m31)

/-- Matrix inverse via the adjugate; `none` exactly when the determinant
vanishes (the situation in which SimpleITK `GetInverse` raises). -/
def Mat3.inv (M : Mat3) : Option Mat3 :=
  if M.det = 0 then none
  else some
    ⟨(M.m22 * M.m33 - M.m23 * M.m32) / M.det,
     (M.m13 * M.m32 - M.m12 * M.m33) / M.det,
     (M.m12 * M.m23 - M.m13 * M.m22) / M.det,
     (M.m23 * M.m31 - M.m21 * M.m33) / M.det,
     (M.m11 * M.m33 - M.m13 * M.m31) / M.det,
     (M.m13 * M.m21 - M.m11 * M.m23) / M.det,
     (M.m21 * M.m32 - M.m22 * M.m31) / M.det,
     (M.m12 * M.m31 - M.m11 * M.m32) / M.det,
     (M.m11 * M.m22 - M.m12 * M.m21) / M.det⟩

/-- SimpleITK affine transform as serialized in an ANTs `.mat` file:
a matrix, a translation and a fixed center. -/
structure AffineTransform where
  matrix : Mat3
  translation : Vec3
  center : Vec3
deriving DecidableEq

/-- Action of an affine transform on a point:
`p ↦ A (p - c) + t + c` (ITK convention with fixed center `c`). -/
def AffineTransform.transformPoint (T : AffineTransform) (p : Vec3) : Vec3 :=
  Vec3.add (Vec3.add (T.matrix.mulVec (Vec3.sub p T.center)) T.translation) T.center

/-- SimpleITK `Transform.GetInverse` for an affine transform: `none` when the
matrix is singular (the library raises), otherwise the affine transform with
matrix `A⁻¹`, translation `-A⁻¹ t` and the same center. -/
def AffineTransform.GetInverse (T : AffineTransform) : Option AffineTransform :=
  match T.matrix.inv with
  | none => none
  | some N => some ⟨N, Vec3.neg (N.mulVec T.translation), T.center⟩

/-- A displacement field, as sampled (with the library's interpolation) at an
arbitrary continuous point: the displacement vector at that point. -/
def DispField : Type := Vec3 → Vec3

/-- The two kinds of SimpleITK transform objects the script builds:
the affine transform read from file (or its inverse), and
`sitk.DisplacementFieldTransform` wrapping of the inverse-warp image. -/
inductive SitkTransform where
  | affine (T : AffineTransform)
  | dispField (field : DispField)

/-- `TransformPoint` of a single transform.  A displacement-field transform
maps `x ↦ x + D(x)` where `D` is the (interpolated) field. -/
def SitkTransform.transformPoint : SitkTransform → Vec3 → Vec3
  | .affine T, p => T.transformPoint p
  | .dispField f, p => Vec3.add p (f p)

/-- `sitk.CompositeTransform(ts).TransformPoint p`.  ITK/SimpleITK composite
transforms apply the transform added last first, so a composite built from
`[T0, T1, ..., Tn]` computes `T0 (T1 (... (Tn p)))`. -/
def compositeTransformPoint : List SitkTransform → Vec3 → Vec3
  | [], p => p
  | t :: ts, p => t.transformPoint (compositeTransformPoint ts p)

/-- One row of a GIfTI data array: a sequence of rational scalars.  A vertex
row of the first data array holds the 3 coordinate components. -/
abbrev Row : Type := List ℚ

/-- The in-memory GIfTI image as nibabel exposes it to the script: the list of
its data arrays, each an ordered list of rows. -/
structure GiftiImage where
  darrays : List (List Row)
deriving DecidableEq

/-- The failure modes of the script.  Each models an uncaught Python
exception: a load failure from nibabel or SimpleITK, `GetInverse` raising on a
singular affine, `surf.darrays[0]` on a mesh with no data arrays, and the
tuple unpacking `v_1, v_2, v_3 = ...` on a row without exactly 3 components. -/
inductive TfmError where
  | loadError
  | notInvertible
  | indexError
  | unpackError
deriving DecidableEq

/-- A row holds exactly 3 coordinate components. -/
def validRow (r : Row) : Prop := List.length r = 3

instance (r : Row) : Decidable (validRow r) := by
  unfold validRow; infer_instance

/-- Repack a transformed point as a data-array row. -/
def rowOfVec (v : Vec3) : Row := [v.x, v.y, v.z]

/-- The pure per-vertex mapping: unpack the row's 3 components, apply the
composite transform, repack.  On a row that is not a 3-tuple it is the
identity (the script raises there instead; see `transformRow`). -/
def tRow (tnew : List SitkTransform) (r : Row) : Row :=
  match r with
  | [v1, v2, v3] => rowOfVec (compositeTransformPoint tnew ⟨v1, v2, v3⟩)
  | _ => r

/-- The loop body of the script at one index: unpack the row into
`v_1, v_2, v_3` (raising `unpackError` unless it has exactly 3 components),
apply `t_new.TransformPoint`, and return the row to write back. -/
def transformRow (tnew : List SitkTransform) (r : Row) : Except TfmError Row :=
  match r with
  | [v1, v2, v3] => .ok (rowOfVec (compositeTransformPoint tnew ⟨v1, v2, v3⟩))
  | _ => .error .unpackError

/-- The body of the script's vertex loop with an explicit iteration budget:
Python's `for i in range(len(data))` fixes the number of iterations from the
original array length before the first iteration, and the in-place updates
never change the length.  At each step the current row at index `i` is read,
transformed and written back at the same index (as the numpy assignment
does). -/
def transformVerticesGo (tnew : List SitkTransform) :
    ℕ → ℕ → List Row → Except TfmError (List Row)
  | 0, _, data => .ok data
  | fuel + 1, i, data =>
    if h : i < data.length then
      match transformRow tnew data[i] with
      | .ok r => transformVerticesGo tnew fuel (i + 1) (data.set i r)
      | .error e => .error e
    else
      .ok data

/-- The script's vertex loop starting at index `i`: visits the indices
`i, i + 1, ...` up to the length of the array, in order. -/
def transformVerticesFrom (tnew : List SitkTransform) (i : ℕ) (data : List Row) :
    Except TfmError (List Row) :=
  transformVerticesGo tnew (data.length - i) i data

/-- The same in-place vertex loop, but visiting the indices in an arbitrary
given order (used to state that the iteration order of the script's loop is
irrelevant). -/
def transformVerticesOrder (tnew : List SitkTransform) :
    List ℕ → List Row → Except TfmError (List Row)
  | [], data => .ok data
  | i :: is, data =>
    if h : i < data.length then
      match transformRow tnew data[i] with
      | .ok r => transformVerticesOrder tnew is (data.set i r)
      | .error e => .error e
    else
      .error .indexError

/-- Rewriting of the whole first data array as one pass over its original
rows; the reference point the in-place loop is proved equal to. -/
def mapRows (tnew : List SitkTransform) : List Row → Except TfmError (List Row)
  | [] => .ok []
  | r :: rs =>
    match transformRow tnew r with
    | .error e => .error e
    | .ok v =>
      match mapRows tnew rs with
      | .error e => .error e
      | .ok vs => .ok (v :: vs)

/-- The composite transform the script builds at line 43:
`sitk.CompositeTransform([tfm_inv_warp, tfm_aff.GetInverse()])`, given the
already-computed affine inverse. -/
def t_new (tfm_inv_warp : DispField) (aff_inv : AffineTransform) : List SitkTransform :=
  [SitkTransform.dispField tfm_inv_warp, SitkTransform.affine aff_inv]

/-- The files the script reads, after parsing by the external libraries:
`none` models a file that is missing, unreadable or malformed, which makes
the corresponding library call raise. -/
structure Env where
  meshFile : Option GiftiImage
  affineFile : Option AffineTransform
  warpFile : Option DispField

/-- `transform_gifti_between_spaces(in_filename, out_filename, affine_tfm,
inv_warp_tfm)`.  Loads the mesh, reads the affine and the displacement-field
transforms, builds `sitk.CompositeTransform([tfm_inv_warp,
tfm_aff.GetInverse()])`, rewrites every row of `surf.darrays[0].data` in
place through `TransformPoint`, and saves the mesh.  `Except.ok m` means the
mesh `m` is written to the output path; `Except.error e` means the exception
`e` propagated and nothing was written. -/
def transform_gifti_between_spaces (env : Env) : Except TfmError GiftiImage :=
  match env.meshFile with
  | none => .error .loadError
  | some surf =>
    match env.affineFile with
    | none => .error .loadError
    | some tfm_aff =>
      match env.warpFile with
      | none => .error .loadError
      | some tfm_inv_warp =>
        match tfm_aff.GetInverse with
        | none => .error .notInvertible
        | some aff_inv =>
          match surf.darrays with
          | [] => .error .indexError
          | d0 :: rest =>
            match transformVerticesFrom (t_new tfm_inv_warp aff_inv) 0 d0 with
            | .error e => .error e
            | .ok d0new => .ok ⟨d0new :: rest⟩

/-- Path literal from the script's `__main__` block and docstring example. -/
def example_mesh_path : String := "./input/brain_in_space_1.rh.white.surf.gii"

/-- Path literal from the script's `__main__` block and docstring example. -/
def example_affine_path : String := "./transforms/tfm_0GenericAffine.mat"

/-- Path literal from the script's `__main__` block and docstring example. -/
def example_warp_path : String := "./transforms/tfm_1InverseWarp.nii.gz"

/-- Path literal from the script's `__main__` block and docstring example. -/
def example_output_path : String := "./output/brain_in_space_2.rh.white.surf.gii"

/-- The formal parameters of `transform_gifti_between_spaces`, in signature
order: `(in_filename, out_filename, affine_tfm, inv_warp_tfm)`. -/
structure CallArgs where
  in_filename : String
  out_filename : String
  affine_tfm : String
  inv_warp_tfm : String
deriving DecidableEq

/-- Positional binding of a 4-element argument list to the signature
`(in_filename, out_filename, affine_tfm, inv_warp_tfm)`. -/
def bindPositional (args : List String) : Option CallArgs :=
  match args with
  | [a1, a2, a3, a4] => some ⟨a1, a2, a3, a4⟩
  | _ => none

/-- The argument list of the call in the `__main__` block (the docstring
example passes the same list): input mesh, affine matrix, inverse warp, output
mesh, in that textual order. -/
def mainCallArgList : List String :=
  [example_mesh_path, example_affine_path, example_warp_path, example_output_path]

/-- On a 3-component row the loop body succeeds and returns the pure
per-vertex mapping of the row. -/
theorem transformRow_eq_ok (tnew : List SitkTransform) (r : Row) (h : validRow r) :
    transformRow tnew r = .ok (tRow tnew r) := by
  unfold validRow at h
  rcases r with _ | ⟨a, _ | ⟨b, _ | ⟨c, _ | ⟨d, t⟩⟩⟩⟩ <;>
    simp_all [transformRow, tRow, List.length]

/-- On a row that does not have exactly 3 components the loop body raises. -/
theorem transformRow_eq_error (tnew : List SitkTransform) (r : Row) (h : ¬ validRow r) :
    transformRow tnew r = .error .unpackError := by
  unfold validRow at h
  rcases r with _ | ⟨a, _ | ⟨b, _ | ⟨c, _ | ⟨d, t⟩⟩⟩⟩ <;>
    simp_all [transformRow, List.length]

/-- When every row is a 3-tuple, the one-pass rewrite is the pure map of the
per-vertex mapping over the original rows. -/
theorem mapRows_eq_ok (tnew : List SitkTransform) (data : List Row)
    (h : ∀ r ∈ data, validRow r) :
    mapRows tnew data = .ok (data.map (tRow tnew)) := by
  induction data with
  | nil => simp [mapRows]
  | cons r rs ih =>
    have h1 : validRow r := h r (List.mem_cons_self ..)
    have h2 : ∀ x ∈ rs, validRow x := fun x hx => h x (List.mem_cons_of_mem _ hx)
    simp [mapRows, transformRow_eq_ok tnew r h1, ih h2]

/-- When some row is not a 3-tuple, the one-pass rewrite raises the unpacking
error. -/
theorem mapRows_eq_error (tnew : List SitkTransform) (data : List Row)
    (h : ∃ r ∈ data, ¬ validRow r) :
    mapRows tnew data = .error .unpackError := by
  induction data with
  | nil => simp at h
  | cons r rs ih =>
    by_cases hr : validRow r
    · obtain ⟨s, hs, hbad⟩ := h
      rcases List.mem_cons.mp hs with rfl | hmem
      · exact absurd hr hbad
      · simp [mapRows, transformRow_eq_ok tnew r hr, ih ⟨s, hmem, hbad⟩]
    · simp [mapRows, transformRow_eq_error tnew r hr]

/-- The in-place vertex loop with enough fuel computes, on the part of the
array it has not yet visited, exactly the one-pass rewrite of the original
rows: in-place updates at already-visited indices never influence later
iterations. -/
theorem transformVerticesGo_eq (tnew : List SitkTransform) :
    ∀ (fuel i : ℕ) (data : List Row), data.length - i ≤ fuel →
      transformVerticesGo tnew fuel i data =
        Except.map (fun rs => data.take i ++ rs) (mapRows tnew (data.drop i)) := by
  intro fuel
  induction fuel with
  | zero =>
    intro i data hk
    have hle : data.length ≤ i := by omega
    rw [transformVerticesGo, List.drop_eq_nil_iff.mpr hle]
    simp [mapRows, Except.map, List.take_of_length_le hle]
  | succ fuel ih =>
    intro i data hk
    by_cases h : i < data.length
    · rw [transformVerticesGo, dif_pos h, List.drop_eq_getElem_cons h]
      cases htr : transformRow tnew data[i] with
      | error e => simp [mapRows, htr, Except.map]
      | ok r =>
        show transformVerticesGo tnew fuel (i + 1) (data.set i r) = _
        rw [ih (i + 1) (data.set i r) (by rw [List.length_set]; omega)]
        have hdrop : (data.set i r).drop (i + 1) = data.drop (i + 1) := by
          rw [List.drop_set, if_pos (by omega)]
        have htake : (data.set i r).take (i + 1) = data.take i ++ [r] := by
          rw [List.take_succ, List.set_take,
            List.set_eq_of_length_le (by rw [List.length_take]; omega),
            List.getElem?_set_self h]
          rfl
        rw [hdrop, htake]
        simp only [mapRows, htr]
        cases mapRows tnew (data.drop (i + 1)) <;>
          simp [Except.map, List.append_assoc]
    · have hle : data.length ≤ i := by omega
      rw [transformVerticesGo, dif_neg h, List.drop_eq_nil_iff.mpr hle]
      simp [mapRows, Except.map, List.take_of_length_le hle]

/-- The script's vertex loop from index 0 is the one-pass rewrite of the
original rows. -/
theorem transformVerticesFrom_zero_eq (tnew : List SitkTransform) (data : List Row) :
    transformVerticesFrom tnew 0 data = mapRows tnew data := by
  rw [transformVerticesFrom, transformVerticesGo_eq tnew (data.length - 0) 0 data (by omega)]
  simp only [List.drop_zero, List.take_zero, List.nil_append]
  cases mapRows tnew data <;> simp [Except.map]

/-- Once the three input files load, the affine is invertible and the mesh has
a first data array, the whole function is the one-pass rewrite of the first
data array wrapped back into the mesh. -/
theorem transform_eq_of_loaded (env : Env) (surf : GiftiImage) (aff : AffineTransform)
    (w : DispField) (g : AffineTransform) (d0 : List Row) (rest : List (List Row))
    (hm : env.meshFile = some surf) (ha : env.affineFile = some aff)
    (hw : env.warpFile = some w) (hg : aff.GetInverse = some g)
    (hd : surf.darrays = d0 :: rest) :
    transform_gifti_between_spaces env =
      Except.map (fun d0new => GiftiImage.mk (d0new :: rest))
        (mapRows (t_new w g) d0) := by
  unfold transform_gifti_between_spaces
  simp only [hm, ha, hw, hg, hd]
  rw [transformVerticesFrom_zero_eq]
  cases mapRows (t_new w g) d0 <;> simp [Except.map]

/-- Adding and then subtracting the same vector cancels. -/
theorem Vec3.sub_add_cancel (u w : Vec3) : Vec3.add (Vec3.sub u w) w = u := by
  obtain ⟨a, b, c⟩ := u
  obtain ⟨d, e, f⟩ := w
  simp only [Vec3.add, Vec3.sub, Vec3.mk.injEq]
  refine ⟨by ring, by ring, by ring⟩

/-- Subtracting a vector just added cancels. -/
theorem Vec3.add_sub_cancel (u w : Vec3) : Vec3.sub (Vec3.add u w) w = u := by
  obtain ⟨a, b, c⟩ := u
  obtain ⟨d, e, f⟩ := w
  simp only [Vec3.add, Vec3.sub, Vec3.mk.injEq]
  refine ⟨by ring, by ring, by ring⟩

/-- Adding a vector and then its negation cancels. -/
theorem Vec3.add_neg_cancel_right (u w : Vec3) :
    Vec3.add (Vec3.add u w) (Vec3.neg w) = u := by
  obtain ⟨a, b, c⟩ := u
  obtain ⟨d, e, f⟩ := w
  simp only [Vec3.add, Vec3.neg, Vec3.mk.injEq]
  refine ⟨by ring, by ring, by ring⟩

/-- Adding the negation of a vector and then the vector cancels. -/
theorem Vec3.neg_add_cancel_right (u w : Vec3) :
    Vec3.add (Vec3.add u (Vec3.neg w)) w = u := by
  obtain ⟨a, b, c⟩ := u
  obtain ⟨d, e, f⟩ := w
  simp only [Vec3.add, Vec3.neg, Vec3.mk.injEq]
  refine ⟨by ring, by ring, by ring⟩

/-- Matrix-vector multiplication is additive. -/
theorem Mat3.mulVec_add (M : Mat3) (u w : Vec3) :
    M.mulVec (Vec3.add u w) = Vec3.add (M.mulVec u) (M.mulVec w) := by
  obtain ⟨a, b, c⟩ := u
  obtain ⟨d, e, f⟩ := w
  simp only [Mat3.mulVec, Vec3.add, Vec3.mk.injEq]
  refine ⟨by ring, by ring, by ring⟩

/-- Matrix-vector multiplication commutes with negation. -/
theorem Mat3.mulVec_neg (M : Mat3) (u : Vec3) :
    M.mulVec (Vec3.neg u) = Vec3.neg (M.mulVec u) := by
  obtain ⟨a, b, c⟩ := u
  simp only [Mat3.mulVec, Vec3.neg, Vec3.mk.injEq]
  refine ⟨by ring, by ring, by ring⟩

/-- The adjugate-based inverse is a genuine two-sided inverse of the matrix
action on vectors. -/
theorem Mat3.inv_correct (M N : Mat3) (h : M.inv = some N) (v : Vec3) :
    N.mulVec (M.mulVec v) = v ∧ M.mulVec (N.mulVec v) = v := by
  unfold Mat3.inv at h
  split at h
  · exact absurd h (by simp)
  · rename_i hdet
    injection h with h
    subst h
    obtain ⟨a, b, c⟩ := v
    simp only [Mat3.det] at hdet
    constructor <;>
      · simp only [Mat3.mulVec, Mat3.det, Vec3.mk.injEq]
        refine ⟨?_, ?_, ?_⟩ <;> (field_simp; ring)

/-- `GetInverse` undoes the affine transform: applying the loaded affine and
then its inverse returns the original point. -/
theorem AffineTransform.GetInverse_left (T G : AffineTransform)
    (h : T.GetInverse = some G) (p : Vec3) :
    G.transformPoint (T.transformPoint p) = p := by
  unfold AffineTransform.GetInverse at h
  cases hM : T.matrix.inv with
  | none => rw [hM] at h; exact absurd h (by simp)
  | some N =>
    rw [hM] at h
    injection h with h
    subst h
    have h1 := (Mat3.inv_correct T.matrix N hM (Vec3.sub p T.center)).1
    show Vec3.add (Vec3.add (N.mulVec (Vec3.sub (T.transformPoint p) T.center))
      (Vec3.neg (N.mulVec T.translation))) T.center = p
    unfold AffineTransform.transformPoint
    rw [Vec3.add_sub_cancel, Mat3.mulVec_add, h1, Vec3.add_neg_cancel_right,
      Vec3.sub_add_cancel]

/-- `GetInverse` is also a right inverse: applying the inverse and then the
loaded affine returns the original point. -/
theorem AffineTransform.GetInverse_right (T G : AffineTransform)
    (h : T.GetInverse = some G) (p : Vec3) :
    T.transformPoint (G.transformPoint p) = p := by
  unfold AffineTransform.GetInverse at h
  cases hM : T.matrix.inv with
  | none => rw [hM] at h; exact absurd h (by simp)
  | some N =>
    rw [hM] at h
    injection h with h
    subst h
    have h2 := (Mat3.inv_correct T.matrix N hM (Vec3.sub p T.center)).2
    have h3 := (Mat3.inv_correct T.matrix N hM T.translation).2
    show T.transformPoint (Vec3.add (Vec3.add (N.mulVec (Vec3.sub p T.center))
      (Vec3.neg (N.mulVec T.translation))) T.center) = p
    unfold AffineTransform.transformPoint
    rw [Vec3.add_sub_cancel, Mat3.mulVec_add, h2, Mat3.mulVec_neg, h3,
      Vec3.neg_add_cancel_right, Vec3.sub_add_cancel]

/-- Visiting any duplicate-free set of in-range indices whose rows are all
3-tuples succeeds, rewrites exactly the visited indices with the pure
per-vertex mapping of their original rows, and leaves the rest alone. -/
theorem transformVerticesOrder_ok (tnew : List SitkTransform) :
    ∀ (l : List ℕ) (data : List Row), l.Nodup →
      (∀ i ∈ l, ∃ r, data[i]? = some r ∧ validRow r) →
      ∃ out, transformVerticesOrder tnew l data = .ok out ∧
        out.length = data.length ∧
        ∀ j : ℕ, out[j]? = if j ∈ l then (data[j]?).map (tRow tnew) else data[j]? := by
  intro l
  induction l with
  | nil =>
    intro data _ _
    exact ⟨data, rfl, rfl, by simp⟩
  | cons i is ih =>
    intro data hnd hval
    obtain ⟨r, hr, hvr⟩ := hval i (List.mem_cons_self ..)
    obtain ⟨hi, hri⟩ := List.getElem?_eq_some.mp hr
    have hnotmem : i ∉ is := (List.nodup_cons.mp hnd).1
    have hnd2 : is.Nodup := (List.nodup_cons.mp hnd).2
    have hstep : transformVerticesOrder tnew (i :: is) data
        = transformVerticesOrder tnew is (data.set i (tRow tnew r)) := by
      simp only [transformVerticesOrder]
      rw [dif_pos hi, hri, transformRow_eq_ok tnew r hvr]
    have hval2 : ∀ j ∈ is, ∃ s, (data.set i (tRow tnew r))[j]? = some s ∧ validRow s := by
      intro j hj
      have hji : i ≠ j := fun he => hnotmem (he ▸ hj)
      rw [List.getElem?_set_ne hji]
      exact hval j (List.mem_cons_of_mem _ hj)
    obtain ⟨out, hout, hlen, hpt⟩ := ih (data.set i (tRow tnew r)) hnd2 hval2
    refine ⟨out, hstep.trans hout, by rw [hlen, List.length_set], ?_⟩
    intro j
    rw [hpt j]
    by_cases hji : j = i
    · subst hji
      rw [if_neg hnotmem, List.getElem?_set_self hi, if_pos (List.mem_cons_self ..), hr]
      rfl
    · rw [List.getElem?_set_ne (fun he => hji he.symm)]
      simp only [List.mem_cons, hji, false_or]

/-- If some visited in-range index holds a row that is not a 3-tuple, the
order-generalized loop raises the unpacking error, whatever the visiting
order. -/
theorem transformVerticesOrder_error (tnew : List SitkTransform) :
    ∀ (l : List ℕ) (data : List Row),
      (∀ i ∈ l, i < data.length) →
      (∃ i ∈ l, ∃ r, data[i]? = some r ∧ ¬ validRow r) →
      transformVerticesOrder tnew l data = .error .unpackError := by
  intro l
  induction l with
  | nil =>
    intro data _ hbad
    simp at hbad
  | cons i is ih =>
    intro data hbnd hbad
    have hi : i < data.length := hbnd i (List.mem_cons_self ..)
    by_cases hvi : validRow data[i]
    · obtain ⟨j, hj, s, hs, hbs⟩ := hbad
      have hji : j ≠ i := by
        intro he
        subst he
        obtain ⟨_, h3⟩ := List.getElem?_eq_some.mp hs
        exact hbs (h3 ▸ hvi)
      have hjis : j ∈ is := by
        rcases List.mem_cons.mp hj with rfl | h2
        · exact absurd rfl hji
        · exact h2
      have hstep : transformVerticesOrder tnew (i :: is) data
          = transformVerticesOrder tnew is (data.set i (tRow tnew data[i])) := by
        simp only [transformVerticesOrder]
        rw [dif_pos hi, transformRow_eq_ok tnew _ hvi]
      rw [hstep]
      apply ih
      · intro k hk
        rw [List.length_set]
        exact hbnd k (List.mem_cons_of_mem _ hk)
      · refine ⟨j, hjis, s, ?_, hbs⟩
        rw [List.getElem?_set_ne (fun he => hji he.symm)]
        exact hs
    · simp only [transformVerticesOrder]
      rw [dif_pos hi, transformRow_eq_error tnew _ hvi]

/-- The identity 3x3 matrix. -/
def idMat3 : Mat3 := ⟨1, 0, 0, 0, 1, 0, 0, 0, 1⟩

/-- A synthetic non-trivial displacement field: at point `(x, y, z)` the
sampled displacement is `(x, 0, 0)`. -/
def w0 : DispField := fun p => ⟨p.x, 0, 0⟩

/-- A synthetic non-trivial affine transform: translation by `(1, 0, 0)`. -/
def aff0 : AffineTransform := ⟨idMat3, ⟨1, 0, 0⟩, ⟨0, 0, 0⟩⟩

/-- The inverse of `aff0`: translation by `(-1, 0, 0)`. -/
def affInv0 : AffineTransform := ⟨idMat3, ⟨-1, 0, 0⟩, ⟨0, 0, 0⟩⟩

/-- Concrete evaluation of `GetInverse` on the synthetic affine `aff0`. -/
theorem aff0_GetInverse_eq : aff0.GetInverse = some affInv0 := by
  simp only [aff0, affInv0, AffineTransform.GetInverse, Mat3.inv, Mat3.det, Mat3.mulVec,
    Vec3.neg, idMat3]
  norm_num

/-- C1, counterexample.  The claim states the composed transform built at
line 43 applies the displacement field first and the inverted affine second.
It is false: ITK/SimpleITK composite transforms apply the transform added
last first, so `CompositeTransform([tfm_inv_warp, tfm_aff.GetInverse()])`
applies the inverted affine first.  At the point `(1, 0, 0)`, with the affine
`aff0` (translation by `(1, 0, 0)`) and the displacement field `w0`, the
composite yields a different point than displacement-then-inverted-affine
would. -/
theorem C1_counterexample :
    aff0.GetInverse = some affInv0 ∧
    compositeTransformPoint (t_new w0 affInv0) ⟨1, 0, 0⟩ ≠
      affInv0.transformPoint
        (SitkTransform.transformPoint (SitkTransform.dispField w0) ⟨1, 0, 0⟩) := by
  constructor
  · exact aff0_GetInverse_eq
  · simp only [t_new, compositeTransformPoint, SitkTransform.transformPoint,
      AffineTransform.transformPoint, Mat3.mulVec, Vec3.add, Vec3.sub, Vec3.neg, w0, affInv0,
      idMat3, ne_eq, Vec3.mk.injEq]
    norm_num

/-- C1, amended.  The composed transform built at line 43 applies, on any
input point, the inverse of the loaded affine transform first and the
displacement-field transform second (ITK composite transforms apply the
last-added transform first); the affine component, and only the affine
component, is inverted: the first stage is a genuine two-sided inverse of the
loaded affine, while the displacement field enters uninverted. -/
theorem C1_amended_composite_order (w : DispField) (aff g : AffineTransform) (p : Vec3)
    (h : aff.GetInverse = some g) :
    compositeTransformPoint (t_new w g) p =
      SitkTransform.transformPoint (SitkTransform.dispField w) (g.transformPoint p) ∧
    g.transformPoint (aff.transformPoint p) = p ∧
    aff.transformPoint (g.transformPoint p) = p :=
  ⟨rfl, AffineTransform.GetInverse_left aff g h p,
    AffineTransform.GetInverse_right aff g h p⟩

/-- Witness for `C1_amended_composite_order` at a concrete input. -/
theorem C1_amended_composite_order_witness :
    aff0.GetInverse = some affInv0 ∧
    (compositeTransformPoint (t_new w0 affInv0) ⟨5, 7, 9⟩ =
      SitkTransform.transformPoint (SitkTransform.dispField w0)
        (affInv0.transformPoint ⟨5, 7, 9⟩) ∧
    affInv0.transformPoint (aff0.transformPoint ⟨5, 7, 9⟩) = ⟨5, 7, 9⟩ ∧
    aff0.transformPoint (affInv0.transformPoint ⟨5, 7, 9⟩) = ⟨5, 7, 9⟩) :=
  ⟨aff0_GetInverse_eq, C1_amended_composite_order w0 aff0 affInv0 ⟨5, 7, 9⟩ aff0_GetInverse_eq⟩

/-- C8: composing the displacement-field stage and the inverted-affine stage
in the two possible orders gives different outputs for a non-trivial pair of
transforms at a concrete input point, i.e. the two-stage composition does not
commute in general. -/
theorem C8_composition_order_sensitive :
    compositeTransformPoint
        [SitkTransform.dispField w0, SitkTransform.affine affInv0] ⟨1, 0, 0⟩ ≠
      compositeTransformPoint
        [SitkTransform.affine affInv0, SitkTransform.dispField w0] ⟨1, 0, 0⟩ := by
  simp only [compositeTransformPoint, SitkTransform.transformPoint,
    AffineTransform.transformPoint, Mat3.mulVec, Vec3.add, Vec3.sub, Vec3.neg, w0, affInv0,
    idMat3, ne_eq, Vec3.mk.injEq]
  norm_num

/-- C9: the `__main__` block (and the docstring example) passes the four
hardcoded paths positionally in the order (input mesh, affine matrix,
inverse warp, output mesh) to the signature `(in_filename, out_filename,
affine_tfm, inv_warp_tfm)`, so the affine-matrix path is bound to
`out_filename`, the inverse-warp path to `affine_tfm` and the output-mesh
path to `inv_warp_tfm`. -/
theorem C9_positional_argument_swap :
    ∃ args, bindPositional mainCallArgList = some args ∧
      args.in_filename = example_mesh_path ∧
      args.out_filename = example_affine_path ∧
      args.affine_tfm = example_warp_path ∧
      args.inv_warp_tfm = example_output_path :=
  ⟨⟨example_mesh_path, example_affine_path, example_warp_path, example_output_path⟩,
    rfl, rfl, rfl, rfl, rfl⟩

/-- On success with all inputs loaded, the output mesh is the input mesh with
its first data array mapped row-by-row by the pure per-vertex mapping. -/
theorem transform_ok_description (env : Env) (surf : GiftiImage) (aff g : AffineTransform)
    (w : DispField) (d0 : List Row) (rest : List (List Row)) (out : GiftiImage)
    (hm : env.meshFile = some surf) (ha : env.affineFile = some aff)
    (hw : env.warpFile = some w) (hg : aff.GetInverse = some g)
    (hd : surf.darrays = d0 :: rest)
    (hok : transform_gifti_between_spaces env = .ok out) :
    out = GiftiImage.mk (d0.map (tRow (t_new w g)) :: rest) ∧ ∀ r ∈ d0, validRow r := by
  rw [transform_eq_of_loaded env surf aff w g d0 rest hm ha hw hg hd] at hok
  by_cases hval : ∀ r ∈ d0, validRow r
  · rw [mapRows_eq_ok _ d0 hval] at hok
    simp only [Except.map] at hok
    injection hok with hok
    exact ⟨hok.symm, hval⟩
  · exfalso
    push_neg at hval
    rw [mapRows_eq_error _ d0 hval] at hok
    simp [Except.map] at hok

/-- C2: for every vertex index `i` of the mesh's first data array, the
function reads the 3 coordinate components stored at index `i` (every row is
a valid 3-tuple), passes them as a single point through the composite
transform, and overwrites the same index: the row at index `i` of the output
equals the pure per-vertex mapping of the original (pre-transform) row at
index `i`. -/
theorem C2_per_vertex_rewrite (env : Env) (surf : GiftiImage) (aff g : AffineTransform)
    (w : DispField) (d0 : List Row) (rest : List (List Row)) (out : GiftiImage)
    (hm : env.meshFile = some surf) (ha : env.affineFile = some aff)
    (hw : env.warpFile = some w) (hg : aff.GetInverse = some g)
    (hd : surf.darrays = d0 :: rest)
    (hok : transform_gifti_between_spaces env = .ok out) :
    ∃ d0new, out.darrays = d0new :: rest ∧ d0new.length = d0.length ∧
      (∀ r ∈ d0, validRow r) ∧
      ∀ j : ℕ, d0new[j]? = (d0[j]?).map (tRow (t_new w g)) := by
  obtain ⟨hout, hval⟩ :=
    transform_ok_description env surf aff g w d0 rest out hm ha hw hg hd hok
  subst hout
  exact ⟨d0.map (tRow (t_new w g)), rfl, List.length_map .., hval,
    fun j => List.getElem?_map ..⟩

/-- C3: on success the vertex count of the mesh's first data array is
unchanged, and the rows of the output's first data array are, position by
position, the transforms of the input rows at the same position: no vertex is
inserted, deleted or reordered, only coordinate values are rewritten. -/
theorem C3_count_and_order_preserved (env : Env) (surf : GiftiImage)
    (aff g : AffineTransform) (w : DispField) (d0 : List Row)
    (rest : List (List Row)) (out : GiftiImage)
    (hm : env.meshFile = some surf) (ha : env.affineFile = some aff)
    (hw : env.warpFile = some w) (hg : aff.GetInverse = some g)
    (hd : surf.darrays = d0 :: rest)
    (hok : transform_gifti_between_spaces env = .ok out) :
    out.darrays.length = surf.darrays.length ∧
    ∃ d0new, out.darrays = d0new :: rest ∧ d0new.length = d0.length ∧
      ∀ j : ℕ, d0new[j]? = (d0[j]?).map (tRow (t_new w g)) := by
  obtain ⟨hout, hval⟩ :=
    transform_ok_description env surf aff g w d0 rest out hm ha hw hg hd hok
  subst hout
  refine ⟨by rw [hd]; simp, d0.map (tRow (t_new w g)), rfl, List.length_map .., ?_⟩
  exact fun j => List.getElem?_map ..

/-- C4: on success every data array of the mesh other than the first is
passed through to the written output untouched. -/
theorem C4_other_arrays_untouched (env : Env) (surf : GiftiImage)
    (aff g : AffineTransform) (w : DispField) (d0 : List Row)
    (rest : List (List Row)) (out : GiftiImage)
    (hm : env.meshFile = some surf) (ha : env.affineFile = some aff)
    (hw : env.warpFile = some w) (hg : aff.GetInverse = some g)
    (hd : surf.darrays = d0 :: rest)
    (hok : transform_gifti_between_spaces env = .ok out) :
    out.darrays.tail = surf.darrays.tail ∧ ∃ d0new, out.darrays = d0new :: rest := by
  obtain ⟨hout, hval⟩ :=
    transform_ok_description env surf aff g w d0 rest out hm ha hw hg hd hok
  subst hout
  exact ⟨by rw [hd]; rfl, d0.map (tRow (t_new w g)), rfl⟩

/-- C5: if any loading step fails (mesh, affine or displacement-field file
missing, unreadable or malformed), the affine has no inverse, the mesh has no
data arrays, or some row of the first data array does not hold exactly 3
coordinate components, then the function propagates an error: it aborts
before the output file is written and the output path stays unmodified. -/
theorem C5_failure_aborts_before_write (env : Env)
    (h : env.meshFile = none ∨ env.affineFile = none ∨ env.warpFile = none ∨
      (∃ aff, env.affineFile = some aff ∧ aff.GetInverse = none) ∨
      (∃ surf, env.meshFile = some surf ∧ (surf.darrays = [] ∨
        ∃ d0 rest, surf.darrays = d0 :: rest ∧ ∃ r ∈ d0, ¬ validRow r))) :
    ∃ e, transform_gifti_between_spaces env = .error e := by
  rcases h with h | h | h | ⟨aff, ha, hai⟩ | ⟨surf, hm, hbad⟩
  · exact ⟨.loadError, by unfold transform_gifti_between_spaces; simp only [h]⟩
  · cases hmf : env.meshFile with
    | none => exact ⟨.loadError, by unfold transform_gifti_between_spaces; simp only [hmf]⟩
    | some surf =>
      exact ⟨.loadError, by unfold transform_gifti_between_spaces; simp only [hmf, h]⟩
  · cases hmf : env.meshFile with
    | none => exact ⟨.loadError, by unfold transform_gifti_between_spaces; simp only [hmf]⟩
    | some surf =>
      cases haf : env.affineFile with
      | none =>
        exact ⟨.loadError, by unfold transform_gifti_between_spaces; simp only [hmf, haf]⟩
      | some aff =>
        exact ⟨.loadError, by unfold transform_gifti_between_spaces; simp only [hmf, haf, h]⟩
  · cases hmf : env.meshFile with
    | none => exact ⟨.loadError, by unfold transform_gifti_between_spaces; simp only [hmf]⟩
    | some surf =>
      cases hwf : env.warpFile with
      | none =>
        exact ⟨.loadError, by unfold transform_gifti_between_spaces; simp only [hmf, ha, hwf]⟩
      | some w =>
        exact ⟨.notInvertible,
          by unfold transform_gifti_between_spaces; simp only [hmf, ha, hwf, hai]⟩
  · cases haf : env.affineFile with
    | none => exact ⟨.loadError, by unfold transform_gifti_between_spaces; simp only [hm, haf]⟩
    | some aff =>
      cases hwf : env.warpFile with
      | none =>
        exact ⟨.loadError, by unfold transform_gifti_between_spaces; simp only [hm, haf, hwf]⟩
      | some w =>
        cases hgi : aff.GetInverse with
        | none =>
          exact ⟨.notInvertible,
            by unfold transform_gifti_between_spaces; simp only [hm, haf, hwf, hgi]⟩
        | some g =>
          rcases hbad with hnil | ⟨d0, rest, hd, r, hr, hbr⟩
          · exact ⟨.indexError,
              by unfold transform_gifti_between_spaces; simp only [hm, haf, hwf, hgi, hnil]⟩
          · refine ⟨.unpackError, ?_⟩
            rw [transform_eq_of_loaded env surf aff w g d0 rest hm haf hwf hgi hd,
              mapRows_eq_error _ d0 ⟨r, hr, hbr⟩]
            rfl

/-- An environment in which every input file fails to load. -/
def failEnv : Env := ⟨none, none, none⟩

/-- Witness for `C5_failure_aborts_before_write` at a concrete input. -/
theorem C5_failure_aborts_before_write_witness :
    (failEnv.meshFile = none ∨ failEnv.affineFile = none ∨ failEnv.warpFile = none ∨
      (∃ aff, failEnv.affineFile = some aff ∧ aff.GetInverse = none) ∨
      (∃ surf, failEnv.meshFile = some surf ∧ (surf.darrays = [] ∨
        ∃ d0 rest, surf.darrays = d0 :: rest ∧ ∃ r ∈ d0, ¬ validRow r))) ∧
    ∃ e, transform_gifti_between_spaces failEnv = .error e :=
  ⟨Or.inl rfl, C5_failure_aborts_before_write failEnv (Or.inl rfl)⟩

/-- C6: the transformed value of vertex `i` depends only on the original
value at index `i` and on the loaded transforms, never on another vertex:
visiting the vertex indices in any order yields exactly the same result as
the script's sequential loop, and on success the output row at each index is
determined by the original input row at that index alone. -/
theorem C6_iteration_order_irrelevant (tnew : List SitkTransform) (data : List Row)
    (l : List ℕ) (hperm : l.Perm (List.range data.length)) :
    transformVerticesOrder tnew l data = transformVerticesFrom tnew 0 data ∧
    ∀ out, transformVerticesFrom tnew 0 data = .ok out →
      ∀ j : ℕ, out[j]? = (data[j]?).map (tRow tnew) := by
  have hnd : l.Nodup := hperm.nodup_iff.mpr (List.nodup_range _)
  have hmem : ∀ k : ℕ, k ∈ l ↔ k < data.length := fun k => by
    rw [hperm.mem_iff, List.mem_range]
  rw [transformVerticesFrom_zero_eq]
  by_cases hval : ∀ r ∈ data, validRow r
  · rw [mapRows_eq_ok tnew data hval]
    obtain ⟨out, hout, hlen, hpt⟩ := transformVerticesOrder_ok tnew l data hnd
      (fun k hk => by
        have hk2 : k < data.length := (hmem k).mp hk
        exact ⟨data[k], List.getElem?_eq_getElem hk2, hval _ (List.getElem_mem hk2)⟩)
    constructor
    · rw [hout]
      congr 1
      apply List.ext_getElem?
      intro j
      rw [hpt j, List.getElem?_map]
      by_cases hj : j < data.length
      · rw [if_pos ((hmem j).mpr hj)]
      · rw [if_neg (fun hc => hj ((hmem j).mp hc)), List.getElem?_eq_none (by omega)]
        rfl
    · intro out2 hout2 j
      injection hout2 with h2
      rw [← h2, List.getElem?_map]
  · push_neg at hval
    obtain ⟨r, hrmem, hrbad⟩ := hval
    rw [mapRows_eq_error tnew data ⟨r, hrmem, hrbad⟩]
    constructor
    · apply transformVerticesOrder_error
      · exact fun k hk => (hmem k).mp hk
      · obtain ⟨j, hj, hjr⟩ := List.mem_iff_getElem.mp hrmem
        exact ⟨j, (hmem j).mpr hj, r, by rw [List.getElem?_eq_getElem hj, hjr], hrbad⟩
    · intro out2 hout2
      exact absurd hout2 (by simp)

/-- A concrete two-vertex first data array. -/
def perm_data : List Row := [[1, 2, 3], [4, 5, 6]]

/-- Witness for `C6_iteration_order_irrelevant` at a concrete input. -/
theorem C6_iteration_order_irrelevant_witness :
    [1, 0].Perm (List.range perm_data.length) ∧
    transformVerticesOrder (t_new w0 affInv0) [1, 0] perm_data =
      transformVerticesFrom (t_new w0 affInv0) 0 perm_data :=
  ⟨by decide,
    (C6_iteration_order_irrelevant (t_new w0 affInv0) perm_data [1, 0] (by decide)).1⟩

/-- Scenario mesh for the spec's worked example: a single vertex at the
origin. -/
def scenario_mesh : GiftiImage := ⟨[[[0, 0, 0]]]⟩

/-- Scenario affine transform: translation by `(1, 2, 3)` (identity matrix,
zero center). -/
def scenario_affine : AffineTransform := ⟨idMat3, ⟨1, 2, 3⟩, ⟨0, 0, 0⟩⟩

/-- The inverse of `scenario_affine`: translation by `(-1, -2, -3)`. -/
def scenario_affine_inv : AffineTransform := ⟨idMat3, ⟨-1, -2, -3⟩, ⟨0, 0, 0⟩⟩

/-- Scenario displacement field: zero displacement everywhere. -/
def zero_warp : DispField := fun _ => ⟨0, 0, 0⟩

/-- Scenario environment: all three input files load successfully. -/
def scenarioEnv : Env := ⟨some scenario_mesh, some scenario_affine, some zero_warp⟩

/-- Concrete evaluation of `GetInverse` on the scenario affine. -/
theorem scenario_affine_GetInverse_eq :
    scenario_affine.GetInverse = some scenario_affine_inv := by
  simp only [scenario_affine, scenario_affine_inv, AffineTransform.GetInverse, Mat3.inv,
    Mat3.det, Mat3.mulVec, Vec3.neg, idMat3]
  norm_num

/-- C7: for the input mesh with a single vertex at `(0, 0, 0)`, an affine
transform equal to translation by `(1, 2, 3)` and a displacement field that
is zero everywhere, the output mesh's single vertex is `(-1, -2, -3)`. -/
theorem C7_translation_scenario :
    transform_gifti_between_spaces scenarioEnv =
      .ok (GiftiImage.mk [[[-1, -2, -3]]]) := by
  rw [transform_eq_of_loaded scenarioEnv scenario_mesh scenario_affine zero_warp
    scenario_affine_inv [[0, 0, 0]] [] rfl rfl rfl scenario_affine_GetInverse_eq rfl]
  norm_num [mapRows, transformRow, t_new, compositeTransformPoint,
    SitkTransform.transformPoint, AffineTransform.transformPoint, Mat3.mulVec, Vec3.add,
    Vec3.sub, rowOfVec, zero_warp, scenario_affine_inv, idMat3, Except.map]

/-- C10: when the mesh's first data array has zero rows, the loop body runs
zero times and the function still writes an output mesh equal to the input
mesh, provided the transform files load and the affine is invertible. -/
theorem C10_empty_first_array (env : Env) (surf : GiftiImage) (aff g : AffineTransform)
    (w : DispField) (rest : List (List Row))
    (hm : env.meshFile = some surf) (ha : env.affineFile = some aff)
    (hw : env.warpFile = some w) (hg : aff.GetInverse = some g)
    (hd : surf.darrays = [] :: rest) :
    transform_gifti_between_spaces env = .ok surf := by
  obtain ⟨da⟩ := surf
  have hda : da = [] :: rest := hd
  subst hda
  rw [transform_eq_of_loaded env ⟨[] :: rest⟩ aff w g [] rest hm ha hw hg rfl]
  rfl

/-- An environment whose mesh has one data array holding zero rows. -/
def emptyMeshEnv : Env := ⟨some ⟨[[]]⟩, some aff0, some w0⟩

/-- Witness for `C10_empty_first_array` at a concrete input. -/
theorem C10_empty_first_array_witness :
    (emptyMeshEnv.meshFile = some (GiftiImage.mk [[]]) ∧
     emptyMeshEnv.affineFile = some aff0 ∧ emptyMeshEnv.warpFile = some w0 ∧
     aff0.GetInverse = some affInv0 ∧ (GiftiImage.mk [[]]).darrays = [] :: []) ∧
    transform_gifti_between_spaces emptyMeshEnv = .ok (GiftiImage.mk [[]]) :=
  ⟨⟨rfl, rfl, rfl, aff0_GetInverse_eq, rfl⟩,
    C10_empty_first_array emptyMeshEnv ⟨[[]]⟩ aff0 affInv0 w0 [] rfl rfl rfl
      aff0_GetInverse_eq rfl⟩

/-- A concrete one-vertex first data array for the success-path witnesses. -/
def wit_d0 : List Row := [[2, 3, 4]]

/-- A concrete extra data array, passed through untouched. -/
def wit_rest : List (List Row) := [[[9]]]

/-- A concrete mesh with two data arrays. -/
def wit_mesh : GiftiImage := ⟨wit_d0 :: wit_rest⟩

/-- A concrete environment on which the whole pipeline succeeds. -/
def witEnv : Env := ⟨some wit_mesh, some aff0, some w0⟩

/-- Concrete evaluation of the whole pipeline on `witEnv`: the vertex
`(2, 3, 4)` maps through the inverted affine to `(1, 3, 4)` and through the
displacement field back to `(2, 3, 4)`; the second data array is untouched. -/
theorem wit_transform_eq :
    transform_gifti_between_spaces witEnv = .ok wit_mesh := by
  rw [transform_eq_of_loaded witEnv wit_mesh aff0 w0 affInv0 wit_d0 wit_rest
    rfl rfl rfl aff0_GetInverse_eq rfl]
  norm_num [mapRows, transformRow, t_new, compositeTransformPoint,
    SitkTransform.transformPoint, AffineTransform.transformPoint, Mat3.mulVec, Vec3.add,
    Vec3.sub, rowOfVec, w0, affInv0, idMat3, Except.map, wit_d0, wit_rest, wit_mesh]

/-- Witness for `C2_per_vertex_rewrite` at a concrete input. -/
theorem C2_per_vertex_rewrite_witness :
    (witEnv.meshFile = some wit_mesh ∧ witEnv.affineFile = some aff0 ∧
     witEnv.warpFile = some w0 ∧ aff0.GetInverse = some affInv0 ∧
     wit_mesh.darrays = wit_d0 :: wit_rest ∧
     transform_gifti_between_spaces witEnv = .ok wit_mesh) ∧
    ∃ d0new, wit_mesh.darrays = d0new :: wit_rest ∧ d0new.length = wit_d0.length ∧
      (∀ r ∈ wit_d0, validRow r) ∧
      ∀ j : ℕ, d0new[j]? = (wit_d0[j]?).map (tRow (t_new w0 affInv0)) :=
  ⟨⟨rfl, rfl, rfl, aff0_GetInverse_eq, rfl, wit_transform_eq⟩,
    C2_per_vertex_rewrite witEnv wit_mesh aff0 affInv0 w0 wit_d0 wit_rest wit_mesh
      rfl rfl rfl aff0_GetInverse_eq rfl wit_transform_eq⟩

/-- Witness for `C3_count_and_order_preserved` at a concrete input. -/
theorem C3_count_and_order_preserved_witness :
    (witEnv.meshFile = some wit_mesh ∧ witEnv.affineFile = some aff0 ∧
     witEnv.warpFile = some w0 ∧ aff0.GetInverse = some affInv0 ∧
     wit_mesh.darrays = wit_d0 :: wit_rest ∧
     transform_gifti_between_spaces witEnv = .ok wit_mesh) ∧
    (wit_mesh.darrays.length = wit_mesh.darrays.length ∧
     ∃ d0new, wit_mesh.darrays = d0new :: wit_rest ∧ d0new.length = wit_d0.length ∧
       ∀ j : ℕ, d0new[j]? = (wit_d0[j]?).map (tRow (t_new w0 affInv0))) :=
  ⟨⟨rfl, rfl, rfl, aff0_GetInverse_eq, rfl, wit_transform_eq⟩,
    C3_count_and_order_preserved witEnv wit_mesh aff0 affInv0 w0 wit_d0 wit_rest wit_mesh
      rfl rfl rfl aff0_GetInverse_eq rfl wit_transform_eq⟩

/-- Witness for `C4_other_arrays_untouched` at a concrete input. -/
theorem C4_other_arrays_untouched_witness :
    (witEnv.meshFile = some wit_mesh ∧ witEnv.affineFile = some aff0 ∧
     witEnv.warpFile = some w0 ∧ aff0.GetInverse = some affInv0 ∧
     wit_mesh.darrays = wit_d0 :: wit_rest ∧
     transform_gifti_between_spaces witEnv = .ok wit_mesh) ∧
    (wit_mesh.darrays.tail = wit_mesh.darrays.tail ∧
     ∃ d0new, wit_mesh.darrays = d0new :: wit_rest) :=
  ⟨⟨rfl, rfl, rfl, aff0_GetInverse_eq, rfl, wit_transform_eq⟩,
    C4_other_arrays_untouched witEnv wit_mesh aff0 affInv0 w0 wit_d0 wit_rest wit_mesh
      rfl rfl rfl aff0_GetInverse_eq rfl wit_transform_eq⟩
